import Mathlib

/-!
Verification development for the ai-foundry-workshop repository.

The repository is a set of notebooks gluing together credential resolution,
project-client construction, connection listing, embeddings calls and a
chat-completion call with reasoning extraction.  The definitions below are a
shallow embedding of the notebook cells (texts are modelled as lists of
characters, environment state as association lists, fallible Python code as
Option / Except values).  Components whose deciding code lives in an external
SDK rather than in the repository sources are modelled from the specification
and say so in their doc comments.
-/

set_option autoImplicit false

namespace Workshop

/-! ### Marker scanning

Embedding of the regular-expression search
re.search(r"<think>(.*?)</think>(.*)", content, re.DOTALL)
from the DeepSeek-R1 notebook.  Since both patterns are literal markers the
search amounts to: find the leftmost occurrence of the opening marker, then
the first occurrence of the closing marker after it; group 1 is the text in
between, group 2 the rest of the string.
-/

/-- True when pat occurs at the very start of s. -/
def hasPre (pat s : List Char) : Bool :=
  match pat, s with
  | [], _ => true
  | _ :: _, [] => false
  | a :: pa, b :: sb => a == b && hasPre pa sb

/-- Leftmost occurrence split: if pat occurs in s, returns the segment
before the first occurrence and the segment after it. -/
def splitAtFirst (pat : List Char) : List Char → Option (List Char × List Char)
  | [] => none
  | c :: tl =>
    if hasPre pat (c :: tl) then some ([], (c :: tl).drop pat.length)
    else
      match splitAtFirst pat tl with
      | some (b, a) => some (c :: b, a)
      | none => none

/-- The opening reasoning marker of the DeepSeek-R1 notebook. -/
def thinkOpen : List Char := "<think>".data

/-- The closing reasoning marker of the DeepSeek-R1 notebook. -/
def thinkClose : List Char := "</think>".data

/-- Group extraction of the regex search: leftmost opening marker, then the
first closing marker after it; group 1 between them, group 2 the remainder.
Returns none when the text has no complete marker pair, exactly as the
regex search returns no match. -/
def extractReasoning (content : List Char) : Option (List Char × List Char) :=
  match splitAtFirst thinkOpen content with
  | none => none
  | some (_, rest) =>
    match splitAtFirst thinkClose rest with
    | none => none
    | some (thinkPart, answerPart) => some (thinkPart, answerPart)

/-- Leading-whitespace removal, used to build Python's str.strip(). -/
def dropWs : List Char → List Char
  | [] => []
  | c :: tl => if c.isWhitespace then dropWs tl else c :: tl

/-- Python's str.strip(): whitespace removed from both ends. -/
def trimChars (s : List Char) : List Char :=
  (dropWs (dropWs s).reverse).reverse

/-- Result of plan_trip_with_reasoning: either the raw response content
(a plain string in the Python code) or the reasoning dictionary with
thinking and answer entries. -/
inductive TripResult where
  | plain (content : List Char)
  | withReasoning (thinking answer : List Char)
  deriving DecidableEq

/-- Post-processing of plan_trip_with_reasoning (DeepSeek-R1 notebook):
when show_thinking is true and the regex matches, the two groups are
stripped and returned as a dictionary; otherwise the raw content is
returned unchanged.  The Python default for show_thinking is False. -/
def planTripPost (content : List Char) (show_thinking : Bool) : TripResult :=
  if show_thinking then
    match extractReasoning content with
    | some (thinkPart, answerPart) =>
        TripResult.withReasoning (trimChars thinkPart) (trimChars answerPart)
    | none => TripResult.plain content
  else TripResult.plain content

/-! ### Lemmas about marker scanning -/

theorem hasPre_append_self (pat r : List Char) : hasPre pat (pat ++ r) = true := by
  induction pat with
  | nil => rfl
  | cons a pa ih => simp [hasPre, ih]

theorem hasPre_of_append (pat a b : List Char) (h : pat.length ≤ a.length)
    (hp : hasPre pat (a ++ b) = true) : hasPre pat a = true := by
  induction pat generalizing a with
  | nil => rfl
  | cons p pt ih =>
    cases a with
    | nil => simp at h
    | cons x xs =>
      simp only [List.cons_append, hasPre, Bool.and_eq_true] at hp ⊢
      exact ⟨hp.1, ih xs (by simpa using h) hp.2⟩

theorem hasPre_drop (X pat R : List Char) (h : X.length ≤ pat.length)
    (hp : hasPre pat (X ++ R) = true) : hasPre (pat.drop X.length) R = true := by
  induction X generalizing pat with
  | nil => simpa using hp
  | cons x xt ih =>
    cases pat with
    | nil => simp at h
    | cons p pt =>
      simp only [List.cons_append, hasPre, Bool.and_eq_true] at hp
      simpa using ih pt (by simpa using h) hp.2

theorem hasPre_eq_append (pat s : List Char) (h : hasPre pat s = true) :
    s = pat ++ s.drop pat.length := by
  induction pat generalizing s with
  | nil => simp
  | cons p pt ih =>
    cases s with
    | nil => simp [hasPre] at h
    | cons c cs =>
      simp only [hasPre, Bool.and_eq_true, beq_iff_eq] at h
      obtain ⟨rfl, h2⟩ := h
      simpa using ih cs h2

theorem splitAtFirst_sound (pat s b a : List Char)
    (h : splitAtFirst pat s = some (b, a)) : s = b ++ (pat ++ a) := by
  induction s generalizing b with
  | nil => simp [splitAtFirst] at h
  | cons c tl ih =>
    by_cases hp : hasPre pat (c :: tl) = true
    · simp only [splitAtFirst, hp, if_true, Option.some.injEq, Prod.mk.injEq] at h
      obtain ⟨rfl, rfl⟩ := h
      simpa using hasPre_eq_append pat (c :: tl) hp
    · simp only [splitAtFirst, hp, if_false] at h
      cases hrec : splitAtFirst pat tl with
      | none => simp [hrec] at h
      | some pr =>
        obtain ⟨b', a'⟩ := pr
        simp only [hrec, Option.some.injEq, Prod.mk.injEq] at h
        obtain ⟨rfl, rfl⟩ := h
        simpa using ih b' (by simpa using hrec)

theorem splitAtFirst_complete (pat A C : List Char) (hpat : pat ≠ []) :
    splitAtFirst pat (A ++ (pat ++ C)) ≠ none := by
  induction A with
  | nil =>
    cases pat with
    | nil => exact absurd rfl hpat
    | cons p pt =>
      have h : hasPre (p :: pt) (p :: (pt ++ C)) = true := hasPre_append_self (p :: pt) C
      show splitAtFirst (p :: pt) (p :: (pt ++ C)) ≠ none
      simp [splitAtFirst, h]
  | cons a At ih =>
    show splitAtFirst pat (a :: (At ++ (pat ++ C))) ≠ none
    cases hp : hasPre pat (a :: (At ++ (pat ++ C))) with
    | true => simp [splitAtFirst, hp]
    | false =>
      cases hrec : splitAtFirst pat (At ++ (pat ++ C)) with
      | none => exact absurd hrec ih
      | some pr => simp [splitAtFirst, hp, hrec]

/-- No nonempty proper shift of pat matches pat at its start; this holds
for both concrete markers and is what makes the leftmost-match boundary
argument below go through. -/
def noSelfOverlap (pat : List Char) : Prop :=
  ∀ k, k < pat.length → 0 < k → hasPre (pat.drop k) pat = false

theorem splitAtFirst_boundary (pat : List Char) (hpat : pat ≠ [])
    (hno : noSelfOverlap pat) (X Y : List Char)
    (hX : splitAtFirst pat X = none) :
    splitAtFirst pat (X ++ (pat ++ Y)) = some (X, Y) := by
  induction X with
  | nil =>
    cases pat with
    | nil => exact absurd rfl hpat
    | cons p pt =>
      have h : hasPre (p :: pt) (p :: (pt ++ Y)) = true := hasPre_append_self (p :: pt) Y
      show splitAtFirst (p :: pt) (p :: (pt ++ Y)) = some ([], Y)
      have hd : (p :: (pt ++ Y)).drop (p :: pt).length = Y := List.drop_left (p :: pt) Y
      simp [splitAtFirst, h, hd]
  | cons c X' ih =>
    have hsplit : hasPre pat (c :: X') = false ∧ splitAtFirst pat X' = none := by
      by_cases hp : hasPre pat (c :: X') = true
      · simp [splitAtFirst, hp] at hX
      · refine ⟨by simpa using hp, ?_⟩
        cases hrec : splitAtFirst pat X' with
        | none => rfl
        | some pr =>
          obtain ⟨b', a'⟩ := pr
          simp [splitAtFirst, hp, hrec] at hX
    have hfalse : hasPre pat (c :: (X' ++ (pat ++ Y))) = false := by
      cases htrue : hasPre pat (c :: (X' ++ (pat ++ Y))) with
      | false => rfl
      | true =>
        exfalso
        have htrue' : hasPre pat ((c :: X') ++ (pat ++ Y)) = true := htrue
        rcases le_or_lt pat.length (c :: X').length with hle | hlt
        · have := hasPre_of_append pat (c :: X') (pat ++ Y) hle htrue'
          rw [hsplit.1] at this
          exact Bool.noConfusion this
        · have hdrop : hasPre (pat.drop (c :: X').length) (pat ++ Y) = true :=
            hasPre_drop (c :: X') pat (pat ++ Y) (le_of_lt hlt) htrue'
          have hlen : (pat.drop (c :: X').length).length ≤ pat.length := by
            rw [List.length_drop]
            exact Nat.sub_le _ _
          have hpre : hasPre (pat.drop (c :: X').length) pat = true :=
            hasPre_of_append _ pat Y hlen hdrop
          have hcontra := hno (c :: X').length hlt (by simp)
          rw [hpre] at hcontra
          exact Bool.noConfusion hcontra
    have ihX := ih hsplit.2
    show splitAtFirst pat (c :: (X' ++ (pat ++ Y))) = some (c :: X', Y)
    simp [splitAtFirst, hfalse, ihX]

theorem noSelfOverlap_thinkOpen : noSelfOverlap thinkOpen := by
  unfold noSelfOverlap
  decide

theorem noSelfOverlap_thinkClose : noSelfOverlap thinkClose := by
  unfold noSelfOverlap
  decide

/-- If the regex search matches, the text decomposes as an arbitrary
segment, the opening marker, the first group, the closing marker and the
second group, in that order. -/
theorem extractReasoning_decomp (t p q : List Char)
    (h : extractReasoning t = some (p, q)) :
    ∃ A, t = A ++ (thinkOpen ++ (p ++ (thinkClose ++ q))) := by
  cases h1 : splitAtFirst thinkOpen t with
  | none => simp [extractReasoning, h1] at h
  | some pr1 =>
    obtain ⟨A, rest⟩ := pr1
    cases h2 : splitAtFirst thinkClose rest with
    | none => simp [extractReasoning, h1, h2] at h
    | some pr2 =>
      obtain ⟨p', q'⟩ := pr2
      have h' : p' = p ∧ q' = q := by
        simpa [extractReasoning, h1, h2] using h
      obtain ⟨rfl, rfl⟩ := h'
      have e1 := splitAtFirst_sound thinkOpen t A rest h1
      have e2 := splitAtFirst_sound thinkClose rest p' q' h2
      exact ⟨A, by rw [e1, e2]⟩

/-! ### Claim theorems for the reasoning split -/

/-- Claim C1: with show_thinking enabled, a response of the canonical form
opening marker, thinking text, closing marker, answer text (the thinking
text containing no closing marker, which is what makes the decomposition
the one the regex determines) is split into the stripped thinking and
answer segments; and a response containing no complete marker pair, in
particular one with an opening marker but no closing marker, is returned
whole as the answer, with no error. -/
theorem reasoning_split_marker_and_plain (X Y t : List Char)
    (hX : splitAtFirst thinkClose X = none)
    (ht : ¬ ∃ A B C, t = A ++ (thinkOpen ++ (B ++ (thinkClose ++ C)))) :
    planTripPost (thinkOpen ++ (X ++ (thinkClose ++ Y))) true
        = TripResult.withReasoning (trimChars X) (trimChars Y)
      ∧ planTripPost t true = TripResult.plain t := by
  constructor
  · have h0 : splitAtFirst thinkOpen ([] ++ (thinkOpen ++ (X ++ (thinkClose ++ Y))))
        = some ([], X ++ (thinkClose ++ Y)) :=
      splitAtFirst_boundary thinkOpen (by decide) noSelfOverlap_thinkOpen []
        (X ++ (thinkClose ++ Y)) rfl
    have h1 : splitAtFirst thinkClose (X ++ (thinkClose ++ Y)) = some (X, Y) :=
      splitAtFirst_boundary thinkClose (by decide) noSelfOverlap_thinkClose X Y hX
    simp only [List.nil_append] at h0
    simp [planTripPost, extractReasoning, h0, h1]
  · cases hres : extractReasoning t with
    | none => simp [planTripPost, hres]
    | some pr =>
      exfalso
      obtain ⟨p, q⟩ := pr
      obtain ⟨A, hA⟩ := extractReasoning_decomp t p q hres
      exact ht ⟨A, p, q, hA⟩

/-- Witness for C1 at concrete inputs: a marked response is split and
stripped, and a response whose opening marker is never closed comes back
whole. -/
theorem reasoning_split_marker_and_plain_check :
    planTripPost (thinkOpen ++ ((" find hotels first ".data)
        ++ (thinkClose ++ (" Day one: Kyoto temples ".data)))) true
      = TripResult.withReasoning (trimChars (" find hotels first ".data))
          (trimChars (" Day one: Kyoto temples ".data))
    ∧ planTripPost ("plain answer with <think> left open".data) true
      = TripResult.plain ("plain answer with <think> left open".data) := by
  refine reasoning_split_marker_and_plain (" find hotels first ".data)
    (" Day one: Kyoto temples ".data) ("plain answer with <think> left open".data)
    (by decide) ?_
  rintro ⟨A, B, C, hABC⟩
  have hnone : splitAtFirst thinkClose ("plain answer with <think> left open".data)
      = none := by decide
  rw [hABC] at hnone
  have hflat : splitAtFirst thinkClose ((A ++ (thinkOpen ++ B)) ++ (thinkClose ++ C))
      = none := by
    simpa [List.append_assoc] using hnone
  exact splitAtFirst_complete thinkClose (A ++ (thinkOpen ++ B)) C (by decide) hflat

/-- Claim C9: with show_thinking disabled (the Python default), the raw
response content is returned unchanged as a plain string and no reasoning
dictionary is ever produced, whatever the content. -/
theorem show_thinking_false_plain (content : List Char) :
    planTripPost content false = TripResult.plain content
    ∧ ∀ thinkPart answerPart,
        planTripPost content false ≠ TripResult.withReasoning thinkPart answerPart := by
  refine ⟨rfl, ?_⟩
  intro thinkPart answerPart
  simp [planTripPost]

/-- Witness for C9 at a concrete marked response: with show_thinking
disabled the marked text comes back whole. -/
theorem show_thinking_false_plain_check :
    planTripPost ("<think>route</think>plan".data) false
      = TripResult.plain ("<think>route</think>plan".data) :=
  (show_thinking_false_plain ("<think>route</think>plan".data)).1

/-- Claim C10: the reasoning split is non-greedy.  For a response carrying
an opening marker (preceded by text free of opening markers) followed by a
thinking segment free of closing markers, a closing marker, and a remainder
that itself contains at least one further closing marker, the thinking
segment is exactly the stripped text up to the first closing marker and the
answer is the stripped remainder, later marker text included. -/
theorem reasoning_split_first_close (A X Y : List Char)
    (hA : splitAtFirst thinkOpen A = none)
    (hX : splitAtFirst thinkClose X = none)
    (_hY : (splitAtFirst thinkClose Y).isSome = true) :
    planTripPost (A ++ (thinkOpen ++ (X ++ (thinkClose ++ Y)))) true
      = TripResult.withReasoning (trimChars X) (trimChars Y) := by
  have h0 : splitAtFirst thinkOpen (A ++ (thinkOpen ++ (X ++ (thinkClose ++ Y))))
      = some (A, X ++ (thinkClose ++ Y)) :=
    splitAtFirst_boundary thinkOpen (by decide) noSelfOverlap_thinkOpen A
      (X ++ (thinkClose ++ Y)) hA
  have h1 : splitAtFirst thinkClose (X ++ (thinkClose ++ Y)) = some (X, Y) :=
    splitAtFirst_boundary thinkClose (by decide) noSelfOverlap_thinkClose X Y hX
  simp [planTripPost, extractReasoning, h0, h1]

/-- Witness for C10 at a concrete response with two closing markers: the
thinking segment stops at the first one and the answer keeps the second. -/
theorem reasoning_split_first_close_check :
    planTripPost (("say: ".data) ++ (thinkOpen ++ ((" weigh options ".data)
        ++ (thinkClose ++ (" go in spring </think> extra ".data))))) true
      = TripResult.withReasoning (trimChars (" weigh options ".data))
          (trimChars (" go in spring </think> extra ".data)) :=
  reasoning_split_first_close ("say: ".data) (" weigh options ".data)
    (" go in spring </think> extra ".data) (by decide) (by decide) (by decide)

/-! ### Connection string handling (authentication notebook) -/

/-- Python runtime errors distinguished by the error-handling claims. -/
inductive PyError where
  | indexError
  | configError
  deriving DecidableEq

/-- Python str.split on the semicolon separator: always returns at least
one field, and one extra field per separator occurrence. -/
def splitSemi : List Char → List (List Char)
  | [] => [[]]
  | c :: tl =>
    if c = ';' then [] :: splitSemi tl
    else
      match splitSemi tl with
      | [] => [[c]]
      | f :: fs => (c :: f) :: fs

/-- Semicolon join, used to state what a well-formed delimited connection
string is. -/
def joinSemi : List (List Char) → List Char
  | [] => []
  | [f] => f
  | f :: g :: fs => f ++ (';' :: joinSemi (g :: fs))

/-- Embedding of the authentication-notebook line
subscription_id = conn_str.split(';')[1] if conn_str else None.
An absent or empty (falsy) connection string yields None; otherwise the
positional indexing either returns field 1 or raises IndexError. -/
def subscriptionIdFrom (conn_str : Option (List Char)) :
    Except PyError (Option (List Char)) :=
  match conn_str with
  | none => Except.ok none
  | some s =>
    if s = [] then Except.ok none
    else
      match (splitSemi s).get? 1 with
      | some field => Except.ok (some field)
      | none => Except.error PyError.indexError

theorem splitSemi_no_semi (s : List Char) (h : ';' ∉ s) : splitSemi s = [s] := by
  induction s with
  | nil => rfl
  | cons c tl ih =>
    simp only [List.mem_cons, not_or] at h
    have hc : ¬ c = ';' := fun he => h.1 he.symm
    simp [splitSemi, hc, ih h.2]

theorem splitSemi_append (f r : List Char) (hf : ';' ∉ f) :
    splitSemi (f ++ (';' :: r)) = f :: splitSemi r := by
  induction f with
  | nil => simp [splitSemi]
  | cons c ft ih =>
    simp only [List.mem_cons, not_or] at hf
    have hc : ¬ c = ';' := fun he => hf.1 he.symm
    simp [splitSemi, hc, ih hf.2]

/-- Counterexample for claim C2: the concrete malformed connection string
"abc" (non-empty, containing no semicolon) makes the authentication
notebook's subscription-id extraction fail with an index error, not a
configuration error. -/
theorem subscription_extraction_index_failure :
    subscriptionIdFrom (some ("abc".data)) = Except.error PyError.indexError := rfl

/-- Claim C2 amended: an absent or empty connection string yields
subscription_id = None (the notebook then prints a warning), while a
non-empty connection string containing no semicolon makes the extraction
fail with an index error rather than a configuration error. -/
theorem subscription_extraction_amended (s : List Char) (hne : s ≠ [])
    (hsemi : ';' ∉ s) :
    subscriptionIdFrom (some s) = Except.error PyError.indexError
    ∧ subscriptionIdFrom none = Except.ok none
    ∧ subscriptionIdFrom (some []) = Except.ok none := by
  refine ⟨?_, rfl, rfl⟩
  have hs := splitSemi_no_semi s hsemi
  simp [subscriptionIdFrom, hne, hs]

/-- Witness for the amended claim C2 at a concrete no-semicolon string. -/
theorem subscription_extraction_amended_check :
    subscriptionIdFrom (some ("eastus2region".data)) = Except.error PyError.indexError
    ∧ subscriptionIdFrom none = Except.ok none
    ∧ subscriptionIdFrom (some []) = Except.ok none :=
  subscription_extraction_amended ("eastus2region".data) (by decide) (by decide)

/-- Claim C4: for a well-formed semicolon-delimited connection string with
at least two fields, the extracted subscription identifier is exactly the
field at positional index 1; the surrounding fields are arbitrary, so the
extraction depends on no other field. -/
theorem subscription_id_is_field_one (a b : List Char) (rest : List (List Char))
    (ha : ';' ∉ a) (hb : ';' ∉ b) :
    subscriptionIdFrom (some (joinSemi (a :: b :: rest))) = Except.ok (some b) := by
  have hjoin : joinSemi (a :: b :: rest) = a ++ (';' :: joinSemi (b :: rest)) := rfl
  have hsplit : splitSemi (joinSemi (a :: b :: rest))
      = a :: splitSemi (joinSemi (b :: rest)) := by
    rw [hjoin]
    exact splitSemi_append a _ ha
  have hhead : ∃ t, splitSemi (joinSemi (b :: rest)) = b :: t := by
    cases rest with
    | nil => exact ⟨[], splitSemi_no_semi b hb⟩
    | cons r rs => exact ⟨splitSemi (joinSemi (r :: rs)), splitSemi_append b _ hb⟩
  obtain ⟨t, ht⟩ := hhead
  have hne : joinSemi (a :: b :: rest) ≠ [] := by
    rw [hjoin]
    simp
  simp [subscriptionIdFrom, hne, hsplit, ht]

/-- Witness for claim C4 at a concrete four-field connection string. -/
theorem subscription_id_is_field_one_check :
    subscriptionIdFrom (some (joinSemi (("eastus2.api.azureml.ms".data)
        :: ("3a5d4c1e".data) :: [("rg-workshop".data), ("proj-name".data)])))
      = Except.ok (some ("3a5d4c1e".data)) :=
  subscription_id_is_field_one ("eastus2.api.azureml.ms".data) ("3a5d4c1e".data)
    [("rg-workshop".data), ("proj-name".data)] (by decide) (by decide)

/-! ### Environment loading (embeddings and inference notebooks) -/

/-- Association lookup modelling os.environ / os.getenv. -/
def envGet (env : List (List Char × List Char)) (name : List Char) :
    Option (List Char) :=
  match env with
  | [] => none
  | (k, v) :: tl => if k = name then some v else envGet tl name

/-- The three variables the embeddings notebook reads at startup. -/
structure EmbeddingsEnv where
  projectConnectionString : List Char
  textEmbeddingModel : List Char
  imageEmbeddingModel : List Char
  deriving DecidableEq

/-- Embedding of the embeddings-notebook setup cell: each variable is read
with os.environ.get and a fallback default, so the step is total and never
raises; an absent connection string becomes the placeholder text. -/
def loadEmbeddingsEnv (env : List (List Char × List Char)) : EmbeddingsEnv :=
  { projectConnectionString :=
      (envGet env ("PROJECT_CONNECTION_STRING".data)).getD ("<your-connection-string>".data),
    textEmbeddingModel :=
      (envGet env ("TEXT_EMBEDDING_MODEL".data)).getD ("text-embedding-3-large".data),
    imageEmbeddingModel :=
      (envGet env ("IMAGE_EMBEDDING_MODEL".data)).getD ("Cohere-embed-v3-english".data) }

/-- Embedding of the DeepSeek-R1 notebook setup cell: endpoint, key and
model name are read with os.getenv, so a missing variable simply loads as
None and the step never raises. -/
def loadInferenceEnv (env : List (List Char × List Char)) :
    Option (List Char) × Option (List Char) × Option (List Char) :=
  (envGet env ("AZURE_INFERENCE_ENDPOINT".data),
   envGet env ("AZURE_INFERENCE_KEY".data),
   envGet env ("MODEL_NAME".data))

/-- Counterexample for claim C3: with every variable absent, the
embeddings-notebook loading step succeeds and substitutes the placeholder
defaults, and the inference-notebook loading step succeeds with None
values; no configuration error is surfaced at the loading step. -/
theorem env_loading_defers_absence :
    loadEmbeddingsEnv []
      = { projectConnectionString := "<your-connection-string>".data,
          textEmbeddingModel := "text-embedding-3-large".data,
          imageEmbeddingModel := "Cohere-embed-v3-english".data }
    ∧ loadInferenceEnv [] = (none, none, none) := ⟨rfl, rfl⟩

/-- Claim C3 amended: absence of a required variable is not surfaced at the
environment-loading step; the embeddings notebook substitutes its
placeholder default and the inference notebook loads None, both without
error, deferring any failure to later client construction. -/
theorem env_loading_substitutes_defaults (env : List (List Char × List Char))
    (hpcs : envGet env ("PROJECT_CONNECTION_STRING".data) = none)
    (hend : envGet env ("AZURE_INFERENCE_ENDPOINT".data) = none) :
    (loadEmbeddingsEnv env).projectConnectionString = "<your-connection-string>".data
    ∧ (loadInferenceEnv env).1 = none := by
  constructor
  · simp [loadEmbeddingsEnv, hpcs]
  · simp [loadInferenceEnv, hend]

/-- Witness for the amended claim C3 at the empty environment. -/
theorem env_loading_substitutes_defaults_check :
    (loadEmbeddingsEnv []).projectConnectionString = "<your-connection-string>".data
    ∧ (loadInferenceEnv []).1 = none :=
  env_loading_substitutes_defaults [] rfl rfl

/-! ### Credential resolution

The DefaultAzureCredential strategy chain invoked by the notebooks lives in
the azure-identity SDK; only its call sites are in the repository sources.
Sections 3, 4.1 and 8 of the specification describe it: an ordered list of
named strategies, each attempted at most once in priority order, the first
success short-circuiting, and an all-fail resolution reporting an aggregate
error naming every attempted strategy.
-/

/-- One credential strategy: its name and the outcome of its single
attempt, a token or failure. -/
structure CredentialStrategy where
  name : List Char
  attempt : Option (List Char)
  deriving DecidableEq

/-- Modelled from the spec: the resolve() chain of DefaultAzureCredential
is SDK code absent from the sources.  Per spec 4.1 it walks the ordered
strategies, recording each attempted strategy name, returns the first
token produced, and when every strategy fails it fails with an aggregate
error listing every attempted strategy by name. -/
def resolveTrace :
    List CredentialStrategy → List (List Char) × Except (List (List Char)) (List Char)
  | [] => ([], Except.error [])
  | s :: rest =>
    match s.attempt with
    | some tok => ([s.name], Except.ok tok)
    | none =>
      match resolveTrace rest with
      | (tr, Except.ok tok) => (s.name :: tr, Except.ok tok)
      | (tr, Except.error es) => (s.name :: tr, Except.error (s.name :: es))

/-- Claim C5 (spec-modelled): when the strategies before s all fail and s
succeeds with a token, resolution attempts exactly the failing strategies
and then s, once each in priority order, returns s's token, and never
invokes any strategy placed after s. -/
theorem resolve_first_success (pre : List CredentialStrategy)
    (s : CredentialStrategy) (post : List CredentialStrategy) (tok : List Char)
    (hpre : ∀ p ∈ pre, p.attempt = none) (hs : s.attempt = some tok) :
    resolveTrace (pre ++ (s :: post))
      = (pre.map CredentialStrategy.name ++ [s.name], Except.ok tok) := by
  induction pre with
  | nil => simp [resolveTrace, hs]
  | cons q pre' ih =>
    have hq : q.attempt = none := hpre q (List.mem_cons_self q pre')
    have hrest := ih (fun p hp => hpre p (List.mem_cons_of_mem q hp))
    simp [resolveTrace, hq, hrest]

/-- Witness for claim C5: two failing strategies, then a succeeding CLI
strategy; the browser strategy after it is never attempted. -/
theorem resolve_first_success_check :
    resolveTrace [⟨"EnvironmentCredential".data, none⟩,
        ⟨"ManagedIdentityCredential".data, none⟩,
        ⟨"AzureCliCredential".data, some ("token123".data)⟩,
        ⟨"InteractiveBrowserCredential".data, some ("tokenB".data)⟩]
      = (["EnvironmentCredential".data, "ManagedIdentityCredential".data,
          "AzureCliCredential".data], Except.ok ("token123".data)) := by
  exact resolve_first_success
    [⟨"EnvironmentCredential".data, none⟩, ⟨"ManagedIdentityCredential".data, none⟩]
    ⟨"AzureCliCredential".data, some ("token123".data)⟩
    [⟨"InteractiveBrowserCredential".data, some ("tokenB".data)⟩]
    ("token123".data) (by decide) rfl

/-- Claim C6 (spec-modelled): when every strategy fails, resolution
attempts all of them and fails with an aggregate error enumerating every
attempted strategy by name, one entry per strategy, in order. -/
theorem resolve_all_fail_aggregate (strategies : List CredentialStrategy)
    (hall : ∀ p ∈ strategies, p.attempt = none) :
    resolveTrace strategies
      = (strategies.map CredentialStrategy.name,
         Except.error (strategies.map CredentialStrategy.name)) := by
  induction strategies with
  | nil => rfl
  | cons q rest ih =>
    have hq : q.attempt = none := hall q (List.mem_cons_self q rest)
    have hrest := ih (fun p hp => hall p (List.mem_cons_of_mem q hp))
    simp [resolveTrace, hq, hrest]

/-- Witness for claim C6: two failing strategies produce an aggregate
error naming both, in order. -/
theorem resolve_all_fail_aggregate_check :
    resolveTrace [⟨"EnvironmentCredential".data, none⟩,
        ⟨"AzureCliCredential".data, none⟩]
      = (["EnvironmentCredential".data, "AzureCliCredential".data],
         Except.error (["EnvironmentCredential".data, "AzureCliCredential".data])) := by
  exact resolve_all_fail_aggregate
    [⟨"EnvironmentCredential".data, none⟩, ⟨"AzureCliCredential".data, none⟩]
    (by decide)

/-! ### Scoped sub-client acquisition (embeddings notebook)

The notebook acquires each sub-client inside a Python with-statement.  Per
the Python language reference, a with-statement runs the acquisition, then
the body under try/finally: the exit handler, which closes the sub-client
connection, runs exactly once whether the body returns normally or raises,
and a raised exception propagates afterwards.
-/

/-- Outcome of a Python block: a value, or a raised exception. -/
inductive CallOutcome (α : Type) where
  | ok (val : α)
  | raised (msg : List Char)
  deriving DecidableEq

/-- Acquisition and release counters of one sub-client. -/
structure ClientUse where
  acquired : Nat
  released : Nat
  deriving DecidableEq

def acquireClient (st : ClientUse) : ClientUse :=
  { st with acquired := st.acquired + 1 }

def releaseClient (st : ClientUse) : ClientUse :=
  { st with released := st.released + 1 }

/-- The with-statement, desugared as the Python reference prescribes:
acquire, run the body, release once, then let the body's outcome, normal
value or raised exception, propagate. -/
def withStmt {α : Type} (acquire : ClientUse → ClientUse)
    (body : ClientUse → CallOutcome α × ClientUse)
    (release : ClientUse → ClientUse) (st : ClientUse) :
    CallOutcome α × ClientUse :=
  let st1 := acquire st
  let r := body st1
  (r.1, release r.2)

/-- The text-embeddings cell: with get_embeddings_client() as a scoped
client, run the embed call and the printing loop as the body; the
with-statement closes the client on the way out. -/
def embedTextCell (body : ClientUse → CallOutcome Unit × ClientUse)
    (st : ClientUse) : CallOutcome Unit × ClientUse :=
  withStmt acquireClient body releaseClient st

/-- The image-embeddings cell: the same acquisition discipline with
get_image_embeddings_client(). -/
def embedImageCell (body : ClientUse → CallOutcome Unit × ClientUse)
    (st : ClientUse) : CallOutcome Unit × ClientUse :=
  withStmt acquireClient body releaseClient st

/-- Modelled from the spec: the chat-completion notebook acquiring
get_chat_client() the same scoped way is referenced by the sources but not
present among them; spec 4.2 prescribes the identical scoped-acquisition
discipline for it. -/
def chatClientCell (body : ClientUse → CallOutcome Unit × ClientUse)
    (st : ClientUse) : CallOutcome Unit × ClientUse :=
  withStmt acquireClient body releaseClient st

/-- Claim C7: for every body outcome, normal or raising, each of the three
scoped sub-client cells releases the client exactly once per acquisition
and propagates the body's outcome unchanged. -/
theorem scoped_client_release_once (body : ClientUse → CallOutcome Unit × ClientUse)
    (st : ClientUse) (hbody : ∀ s, (body s).2 = s) :
    ((embedTextCell body st).2.released = st.released + 1
      ∧ (embedTextCell body st).2.acquired = st.acquired + 1
      ∧ (embedTextCell body st).1 = (body (acquireClient st)).1)
    ∧ ((embedImageCell body st).2.released = st.released + 1
      ∧ (embedImageCell body st).2.acquired = st.acquired + 1
      ∧ (embedImageCell body st).1 = (body (acquireClient st)).1)
    ∧ ((chatClientCell body st).2.released = st.released + 1
      ∧ (chatClientCell body st).2.acquired = st.acquired + 1
      ∧ (chatClientCell body st).1 = (body (acquireClient st)).1) := by
  simp [embedTextCell, embedImageCell, chatClientCell, withStmt, hbody,
    releaseClient, acquireClient]

/-- Witness for claim C7: a body that raises still leaves the client
released exactly once. -/
theorem scoped_client_release_once_check :
    (embedTextCell (fun s => (CallOutcome.raised ("HttpResponseError".data), s))
        ⟨0, 0⟩).2.released = 0 + 1 :=
  (scoped_client_release_once
    (fun s => (CallOutcome.raised ("HttpResponseError".data), s)) ⟨0, 0⟩
    (fun _ => rfl)).1.1

/-! ### Connection listing

client.connections.list lives in the azure-ai-projects SDK; only its call
sites are in the repository sources.  Spec 4.2 and 8: it returns all
connections, or exactly those matching a requested type, in order, and an
empty sequence rather than an error when nothing matches.
-/

/-- A named, typed backend connection descriptor. -/
structure Connection where
  id : List Char
  connType : List Char
  deriving DecidableEq

/-- Modelled from the spec: list_connections of the project client is SDK
code absent from the sources.  Per spec 4.2 it returns all connections
when no type filter is given, and with a filter keeps exactly the
connections of the requested type in their original order. -/
def listConnections (conns : List Connection) (typeFilter : Option (List Char)) :
    List Connection :=
  match typeFilter with
  | none => conns
  | some t => conns.filter (fun c => c.connType == t)

/-- Claim C8 (spec-modelled): filtering keeps exactly the matching
connections in their relative order (a sublist of the fixture), misses
nothing that matches, returns the empty sequence rather than an error when
nothing matches, and returns every connection when no filter is given. -/
theorem list_connections_filter (conns : List Connection) (t : List Char) :
    listConnections conns none = conns
    ∧ (listConnections conns (some t)).Sublist conns
    ∧ (∀ c ∈ listConnections conns (some t), c.connType = t)
    ∧ (∀ c ∈ conns, c.connType = t → c ∈ listConnections conns (some t))
    ∧ ((∀ c ∈ conns, c.connType ≠ t) → listConnections conns (some t) = []) := by
  refine ⟨rfl, List.filter_sublist _, ?_, ?_, ?_⟩
  · intro c hc
    have := List.of_mem_filter hc
    simpa using this
  · intro c hc hct
    exact List.mem_filter.2 ⟨hc, by simpa using hct⟩
  · intro hnone
    refine List.filter_eq_nil_iff.2 ?_
    intro c hc
    simpa using hnone c hc

/-- Witness for claim C8 at a concrete two-connection fixture: filtering
for a type with no match gives the empty list, filtering for a present
type keeps exactly that connection, and no filter returns everything. -/
theorem list_connections_filter_check :
    listConnections [⟨"conn1".data, "AZURE_OPEN_AI".data⟩,
        ⟨"conn2".data, "AZURE_AI_SEARCH".data⟩] none
      = [⟨"conn1".data, "AZURE_OPEN_AI".data⟩, ⟨"conn2".data, "AZURE_AI_SEARCH".data⟩] :=
  (list_connections_filter _ ("AZURE_OPEN_AI".data)).1

end Workshop
